import Mathlib

/-!
Verification of the function-scoping and invocation core of
`kyaml/kio/filters/container.go` (package `filters`).

The Go code is shallowly embedded: resources are values carrying an
optional metadata record (a `GetMeta` failure is modelled by a missing
record), the Go `path` and `strings` library calls used by the code are
re-implemented structurally over `List Char`, and the external container
process is a parameter (`ProcessBehavior`) supplying the results of the
write / run / read / results steps that `Filter` performs.
-/

namespace Kustomize

/-! ### Go `strings` and `path` library models

These model the exact stdlib calls made by `container.go`:
`strings.Split`, `strings.SplitN(s, sep, 2)`, `strings.HasPrefix`,
`path.Clean`, `path.Dir`, `path.Base`.  All separators used by the Go
code are single characters, so splitting is modelled on a single `Char`.
-/

/-- Go `strings.Split(s, sep)` for a one-character separator, on char
lists: splitting the empty list yields one empty field, exactly as Go
returns `[""]` for the empty string. -/
def splitOnChar (c : Char) : List Char → List (List Char)
  | [] => [[]]
  | x :: xs =>
    let r := splitOnChar c xs
    if x = c then [] :: r
    else
      match r with
      | [] => [[x]]
      | y :: ys => (x :: y) :: ys

/-- Go `strings.Split(s, sep)` for a one-character separator. -/
def splitChar (c : Char) (s : String) : List String :=
  (splitOnChar c s.toList).map (fun l => ⟨l⟩)

/-- Join fields back with a separator (used to model how Go
`strings.SplitN(s, sep, 2)` keeps the tail of `s` intact: for a
one-character separator, re-joining the remaining fields reproduces it). -/
def joinWith (sep : String) : List String → String
  | [] => ""
  | [x] => x
  | x :: xs => x ++ sep ++ joinWith sep xs

/-- Go `strings.SplitN(s, sep, 2)` for a one-character separator: at most
two fields, the second keeps any later separators. -/
def splitN2 (c : Char) (s : String) : List String :=
  match splitOnChar c s.toList with
  | [] => [s]
  | [x] => [(⟨x⟩ : String)]
  | x :: y :: ys => [(⟨x⟩ : String), joinWith (String.mk [c]) ((⟨y⟩ : String) :: ys.map (fun l => ⟨l⟩))]

/-- `listStarts s p` is Go `strings.HasPrefix(s, p)` on char lists. -/
def listStarts : List Char → List Char → Bool
  | _, [] => true
  | [], _ :: _ => false
  | a :: as, b :: bs => a = b && listStarts as bs

/-- Go `strings.HasPrefix(s, p)`. -/
def strStarts (s p : String) : Bool :=
  listStarts s.toList p.toList

/-- The segment loop of Go `path.Clean`: working over the `/`-separated
segments, drop empty and `.` segments, let `..` pop the previous segment
(when one exists and is not itself `..`), keep leading `..` segments on a
relative path and drop them on a rooted one.  The accumulator holds the
kept segments in reverse order. -/
def cleanSegs (rooted : Bool) : List String → List String → List String
  | acc, [] => acc
  | acc, seg :: rest =>
    if seg = "" ∨ seg = "." then cleanSegs rooted acc rest
    else if seg = ".." then
      match acc with
      | [] => if rooted then cleanSegs rooted [] rest else cleanSegs rooted [".."] rest
      | a :: as =>
        if a = ".." then cleanSegs rooted (".." :: a :: as) rest
        else cleanSegs rooted as rest
    else cleanSegs rooted (seg :: acc) rest

/-- Join path segments with `/`. -/
def joinSegs : List String → String
  | [] => ""
  | [x] => x
  | x :: xs => x ++ "/" ++ joinSegs xs

/-- Go `path.Clean`: lexical normalization of a slash-separated path.
Empty input yields `"."`; a rooted path keeps its leading `/`; an empty
result collapses to `"."` (or `"/"` when rooted). -/
def pathClean (p : String) : String :=
  if p = "" then "."
  else
    let rooted := strStarts p "/"
    let segs := (cleanSegs rooted [] (splitChar '/' p)).reverse
    let body := joinSegs segs
    if rooted then "/" ++ body
    else if body = "" then "." else body

/-- Go `path.Dir`: everything up to and including the final slash,
cleaned; a path with no slash has directory `"."`. -/
def pathDir (p : String) : String :=
  pathClean ⟨(p.toList.reverse.dropWhile (· ≠ '/')).reverse⟩

/-- Go `path.Base`: the last element of the path after trailing slashes
are removed; `""` gives `"."` and an all-slash path gives `"/"`. -/
def pathBase (p : String) : String :=
  if p = "" then "."
  else
    let stripped := p.toList.reverse.dropWhile (· = '/')
    let last := stripped.takeWhile (· ≠ '/')
    if last = [] then "/" else ⟨last.reverse⟩

example : pathClean "apps2/" = "apps2" := by decide
example : pathClean "" = "." := by decide
example : pathClean "/a/../.." = "/" := by decide
example : pathClean "a/.." = "." := by decide
example : pathClean "./x//y" = "x/y" := by decide
example : pathDir "apps2/deployment.yaml" = "apps2" := by decide
example : pathDir "fn.yaml" = "." := by decide
example : pathDir "functions/fn.yaml" = "functions" := by decide
example : pathBase "functions" = "functions" := by decide
example : pathBase "/" = "/" := by decide
example : strStarts "apps2" "apps" = true := by decide
example : strStarts "apps/x" "apps" = true := by decide
example : strStarts "other" "apps" = false := by decide
example : splitChar ',' "" = [""] := by decide
example : splitN2 '=' "a=b=c" = ["a", "b=c"] := by decide
example : splitN2 '=' "ab" = ["ab"] := by decide

/-! ### Data model

A resource (`yaml.RNode`) is modelled by the metadata view the code
reads: `GetMeta` either fails or yields kind, name, namespace and the
annotation map.  An unreadable metadata record is modelled by `none`. -/

/-- Errors surfaced by the embedded code.  `metaErr` models a failing
`RNode.GetMeta`; `wrap` models `errors.Wrap`; `external` models errors
produced outside the embedded code (process exit, write/read/results). -/
inductive Err where
  | metaErr : Err
  | wrap : Err → Err
  | external : String → Err
deriving DecidableEq

/-- The metadata view of a resource (`yaml.ResourceMeta`): kind, name,
namespace and the annotation map (association list, unique keys). -/
structure Meta where
  kind : String := ""
  name : String := ""
  ns : String := ""
  anns : List (String × String) := []
deriving DecidableEq

/-- A resource; `meta = none` models a node whose `GetMeta` fails. -/
structure Resource where
  meta : Option Meta
deriving DecidableEq

/-- `RNode.GetMeta`: the metadata record, or an error. -/
def Resource.GetMeta (r : Resource) : Except Err Meta :=
  match r.meta with
  | none => .error .metaErr
  | some m => .ok m

/-- Go map lookup `m.Annotations[key]` on the association list. -/
def lookupAnn (key : String) : List (String × String) → Option String
  | [] => none
  | (k, v) :: rest => if k = key then some v else lookupAnn key rest

/-- Go map update `m[k] = v` on the association list: overwrite the
existing entry for `k`, else append. -/
def setAnn (k v : String) : List (String × String) → List (String × String)
  | [] => [(k, v)]
  | (k', v') :: rest => if k' = k then (k, v) :: rest else (k', v') :: setAnn k v rest

/-- `kioutil.PathAnnotation`, the origin-path annotation key. -/
def pathAnnKey : String := "config.kubernetes.io/path"

/-- `kioutil.IndexAnnotation`, the origin-index annotation key. -/
def indexAnnKey : String := "config.kubernetes.io/index"

/-! ### `container.go` definitions -/

/-- `StorageMount`: a storage option mounted into the container. -/
structure StorageMount where
  MountType : String := ""
  Src : String := ""
  DstPath : String := ""
deriving DecidableEq

/-- `ContainerFilter` (the fields the embedded logic reads; the spawn
configuration fields are carried but unused by the modelled paths). -/
structure ContainerFilter where
  Image : String := ""
  Network : String := ""
  StorageMounts : List StorageMount := []
  Config : Resource := ⟨none⟩
  GlobalScope : Bool := false
  ResultsFile : String := ""
  DeferFailure : Bool := false
  Exit : Option Err := none
deriving DecidableEq

/-- `ContainerFilter.GetExit`: the recorded exit status. -/
def ContainerFilter.GetExit (c : ContainerFilter) : Option Err :=
  c.Exit

/-- `StringToStorageMount`: parse `k=v` options separated by commas into
a `StorageMount`.  The Go code indexes `keyVal[1]` unconditionally after
`strings.SplitN(option, "=", 2)`, so an option with no `=` makes it
panic with an index-out-of-range; the panic is modelled as `none`. -/
def StringToStorageMount (s : String) : Option StorageMount :=
  let options := splitChar ',' s
  match options.foldlM
      (fun m option =>
        match splitN2 '=' option with
        | k :: v :: _ => some (setAnn k v m)
        | _ => none)
      ([] : List (String × String)) with
  | none => none
  | some m =>
    some (m.foldl
      (fun sm kv =>
        if kv.1 = "type" then { sm with MountType := kv.2 }
        else if kv.1 = "src" then { sm with Src := kv.2 }
        else if kv.1 = "dst" then { sm with DstPath := kv.2 }
        else sm)
      {})

/-- `functionsDirectoryName`: keyword directory name for functions
scoped one directory higher. -/
def functionsDirectoryName : String := "functions"

/-- `ContainerFilter.getFunctionScope`: the directory containing the
function config (from its origin-path annotation), or that directory's
parent when its base name is `functions`; empty scope when the config
has no origin-path annotation; a wrapped error when `GetMeta` fails. -/
def ContainerFilter.getFunctionScope (c : ContainerFilter) : Except Err String :=
  match c.Config.GetMeta with
  | .error e => .error (.wrap e)
  | .ok m =>
    match lookupAnn pathAnnKey m.anns with
    | none => .ok ""
    | some p =>
      let functionDir := pathClean (pathDir p)
      if pathBase functionDir = functionsDirectoryName then .ok (pathDir functionDir)
      else .ok functionDir

/-- The per-node loop of `ContainerFilter.scope`: walk the nodes in
order, abort on a `GetMeta` error, send nodes without an origin-path
annotation to `saved`, rewrite a `functions` directory to its parent,
and test containment with `strings.HasPrefix(resourceDir, dir)`. -/
def scopeGo (dir : String) : List Resource → Except Err (List Resource × List Resource)
  | [] => .ok ([], [])
  | r :: rest =>
    match r.GetMeta with
    | .error e => .error e
    | .ok m =>
      match scopeGo dir rest with
      | .error e => .error e
      | .ok (input, saved) =>
        match lookupAnn pathAnnKey m.anns with
        | none => .ok (input, r :: saved)
        | some p =>
          let rd := pathClean (pathDir p)
          let rd := if pathBase rd = functionsDirectoryName then pathDir rd else rd
          if strStarts rd dir then .ok (r :: input, saved) else .ok (input, r :: saved)

/-- `ContainerFilter.scope`: partition the nodes into those scoped under
`dir` and the rest; everything is in scope when `GlobalScope` is set or
`dir` is empty or `"."`. -/
def ContainerFilter.scope (c : ContainerFilter) (dir : String) (nodes : List Resource) :
    Except Err (List Resource × List Resource) :=
  if c.GlobalScope then .ok (nodes, [])
  else if dir = "" ∨ dir = "." then .ok (nodes, [])
  else scopeGo dir nodes

/-! ### Provenance defaulting (modelled from the spec)

`ContainerFilter.Filter` calls `kioutil.DefaultPathAnnotation(functionDir,
output)`, whose source is not part of this repository slice. -/

/-- Lower-case one ASCII character. -/
def lowerChar (c : Char) : Char :=
  if 'A' ≤ c ∧ c ≤ 'Z' then Char.ofNat (c.toNat + 32) else c

/-- Lower-case the ASCII letters of a string. -/
def lowerStr (s : String) : String :=
  ⟨s.toList.map lowerChar⟩

/-- Modelled from the spec: the synthesized file name for a resource
lacking an origin path — the namespace segment (if non-empty) followed
by `<kind>_<name>.yaml`, kind and name lower-cased (spec §4.5). -/
def synthName (m : Meta) : String :=
  (if m.ns = "" then "" else lowerStr m.ns ++ "/") ++
    lowerStr m.kind ++ "_" ++ lowerStr m.name ++ ".yaml"

/-- Join a directory and a file name with `/` (empty directory yields
the bare file name). -/
def joinPath (dir fname : String) : String :=
  if dir = "" then fname else dir ++ "/" ++ fname

/-- Occurrences of `s` in `l`. -/
def countStr (s : String) (l : List String) : Nat :=
  (l.filter (fun x => x = s)).length

/-- Modelled from the spec: the per-node loop of
`kioutil.DefaultPathAnnotation` (not under `src/`).  Spec §4.5: resources
already carrying an origin-path annotation are never touched; a resource
lacking one receives a default path built from the scope directory and a
synthesized file name, plus a sibling-index annotation distinguishing
resources that collide on the same synthesized name; a metadata error
aborts.  `assigned` carries the synthesized names already handed out. -/
def dpaGo (dir : String) (assigned : List String) :
    List Resource → Except Err (List Resource)
  | [] => .ok []
  | r :: rest =>
    match r.GetMeta with
    | .error e => .error e
    | .ok m =>
      match lookupAnn pathAnnKey m.anns with
      | some _ =>
        match dpaGo dir assigned rest with
        | .error e => .error e
        | .ok out => .ok (r :: out)
      | none =>
        let fname := synthName m
        let idx := countStr fname assigned
        let m2 : Meta :=
          { m with anns := setAnn indexAnnKey (toString idx)
                            (setAnn pathAnnKey (joinPath dir fname) m.anns) }
        match dpaGo dir (fname :: assigned) rest with
        | .error e => .error e
        | .ok out => .ok ({ meta := some m2 } :: out)

/-- Modelled from the spec: `kioutil.DefaultPathAnnotation(dir, nodes)`
(not under `src/`), defaulting origin-path and index annotations of the
nodes that lack them (spec §4.5). -/
def defaultPathAnns (dir : String) (nodes : List Resource) : Except Err (List Resource) :=
  dpaGo dir [] nodes

/-! ### `ContainerFilter.Filter`

The external container process is a parameter: `ProcessBehavior` gives
the outcome of each effectful step `Filter` performs, in program order —
the `ByteWriter.Write` of the input, the `cmd.Run()` exit status, the
`ByteReader.Read` of the process output, and `doResults`. -/

/-- The outcomes of the effectful steps of one `Filter` call. -/
structure ProcessBehavior where
  writeErr : Option Err := none
  runExit : Option Err := none
  readResult : Except Err (List Resource) := .ok []
  resultsErr : Option Err := none

/-- The result of a `Filter` call: the returned node list (`[]` models
Go's nil slice on error paths), the returned error, and the filter value
after the call (whose `Exit` field `cmd.Run` may have set). -/
structure FilterResult where
  nodes : List Resource
  err : Option Err
  after : ContainerFilter

/-- `ContainerFilter.Filter`: resolve the function scope, partition the
nodes, write the in-scope part to the process, run it, read its output,
handle results; on a non-zero exit with `DeferFailure` unset return the
output plus the saved nodes together with the exit error; otherwise
default provenance annotations on the output and return the output plus
the saved nodes. -/
def ContainerFilter.Filter (c : ContainerFilter) (pb : ProcessBehavior)
    (nodes : List Resource) : FilterResult :=
  match c.getFunctionScope with
  | .error e => ⟨[], some e, c⟩
  | .ok functionDir =>
    match c.scope functionDir nodes with
    | .error e => ⟨[], some e, c⟩
    | .ok (_input, saved) =>
      match pb.writeErr with
      | some e => ⟨[], some e, c⟩
      | none =>
        let c2 := { c with Exit := pb.runExit }
        match pb.readResult with
        | .error e => ⟨[], some e, c2⟩
        | .ok output =>
          match pb.resultsErr with
          | some e => ⟨[], some e, c2⟩
          | none =>
            if pb.runExit.isSome && !c.DeferFailure then
              ⟨output ++ saved, pb.runExit, c2⟩
            else
              match defaultPathAnns functionDir output with
              | .error e => ⟨[], some e, c2⟩
              | .ok out2 => ⟨out2 ++ saved, none, c2⟩

/-! ### Spec-side characterization of the partition -/

/-- The shared `functions`-to-parent rewrite (spec §4.1/§4.2: a
directory whose base name is `functions` is replaced by its parent). -/
def fnDirRewrite (d : String) : String :=
  if pathBase d = functionsDirectoryName then pathDir d else d

/-- The (rewritten) directory a resource path is attributed to. -/
def resDirOf (p : String) : String :=
  fnDirRewrite (pathClean (pathDir p))

/-- The in-scope test `scopeGo` applies to a single resource: readable
metadata, an origin-path annotation present, and the rewritten resource
directory passing the raw `HasPrefix` containment test against `dir`. -/
def keptB (dir : String) (r : Resource) : Bool :=
  match r.meta with
  | none => false
  | some m =>
    match lookupAnn pathAnnKey m.anns with
    | none => false
    | some p => strStarts (resDirOf p) dir

/-! ### Bridge lemmas -/

lemma scopeGo_error_of_bad_meta (dir : String) (nodes : List Resource)
    (h : ∃ r ∈ nodes, r.meta = none) :
    scopeGo dir nodes = .error .metaErr := by
  induction nodes with
  | nil => simp at h
  | cons r rest ih =>
    obtain ⟨x, hx, hxm⟩ := h
    rcases List.mem_cons.mp hx with hhead | htail
    · subst hhead
      simp [scopeGo, Resource.GetMeta, hxm]
    · cases hr : r.meta with
      | none => simp [scopeGo, Resource.GetMeta, hr]
      | some m =>
        have := ih ⟨x, htail, hxm⟩
        simp [scopeGo, Resource.GetMeta, hr, this]

lemma scopeGo_ok_all_meta (dir : String) (nodes : List Resource)
    (pr : List Resource × List Resource)
    (h : scopeGo dir nodes = .ok pr) :
    ∀ r ∈ nodes, r.meta.isSome := by
  intro r hr
  cases hm : r.meta with
  | some m => rfl
  | none =>
    rw [scopeGo_error_of_bad_meta dir nodes ⟨r, hr, hm⟩] at h
    exact absurd h (by simp)

lemma scopeGo_eq_filter (dir : String) (nodes : List Resource)
    (h : ∀ r ∈ nodes, r.meta.isSome) :
    scopeGo dir nodes =
      .ok (nodes.filter (keptB dir), nodes.filter (fun r => !keptB dir r)) := by
  induction nodes with
  | nil => rfl
  | cons r rest ih =>
    have hr : r.meta.isSome := h r (List.mem_cons_self r rest)
    obtain ⟨m, hm⟩ := Option.isSome_iff_exists.mp hr
    have ih' := ih (fun x hx => h x (List.mem_cons_of_mem r hx))
    cases hann : lookupAnn pathAnnKey m.anns with
    | none =>
      have hk : keptB dir r = false := by simp [keptB, hm, hann]
      simp [scopeGo, Resource.GetMeta, hm, ih', hann, List.filter_cons, hk]
    | some p =>
      cases hs : strStarts (resDirOf p) dir with
      | true =>
        have hk' : keptB dir r = true := by simp [keptB, hm, hann, hs]
        have hs' : strStarts
            (if pathBase (pathClean (pathDir p)) = functionsDirectoryName
             then pathDir (pathClean (pathDir p)) else pathClean (pathDir p)) dir = true := by
          simpa [resDirOf, fnDirRewrite] using hs
        simp [scopeGo, Resource.GetMeta, hm, ih', hann, List.filter_cons, hk', hs']
      | false =>
        have hk' : keptB dir r = false := by simp [keptB, hm, hann, hs]
        have hs' : strStarts
            (if pathBase (pathClean (pathDir p)) = functionsDirectoryName
             then pathDir (pathClean (pathDir p)) else pathClean (pathDir p)) dir = false := by
          simpa [resDirOf, fnDirRewrite] using hs
        simp [scopeGo, Resource.GetMeta, hm, ih', hann, List.filter_cons, hk', hs']

lemma scopeGo_ok_parts (dir : String) (nodes inp sav : List Resource)
    (h : scopeGo dir nodes = .ok (inp, sav)) :
    inp = nodes.filter (keptB dir) ∧ sav = nodes.filter (fun r => !keptB dir r) := by
  have hmeta := scopeGo_ok_all_meta dir nodes (inp, sav) h
  rw [scopeGo_eq_filter dir nodes hmeta] at h
  simp only [Except.ok.injEq, Prod.mk.injEq] at h
  exact ⟨h.1.symm, h.2.symm⟩

lemma length_filter_add_compl {α : Type} (p : α → Bool) (l : List α) :
    (l.filter p).length + (l.filter (fun x => !p x)).length = l.length := by
  induction l with
  | nil => rfl
  | cons x xs ih =>
    cases hx : p x with
    | true =>
      simp [List.filter_cons, hx]
      omega
    | false =>
      simp [List.filter_cons, hx]
      omega

/-! ### Concrete resources used by counterexamples and witnesses -/

/-- A resource read from `apps2/deployment.yaml` — its directory is a
sibling of the scope directory `apps`, sharing only a string prefix. -/
def siblingRes : Resource :=
  ⟨some { kind := "Deployment", name := "d", anns := [(pathAnnKey, "apps2/deployment.yaml")] }⟩

/-- A resource read from `dir/a.yaml`. -/
def dirRes : Resource :=
  ⟨some { kind := "Deployment", name := "foo", anns := [(pathAnnKey, "dir/a.yaml")] }⟩

/-- A resource carrying no origin-path annotation. -/
def noAnnRes : Resource :=
  ⟨some { kind := "Service", name := "bar", anns := [] }⟩

/-- A resource whose metadata is unreadable. -/
def badMetaRes : Resource := ⟨none⟩

/-! ### Claim theorems -/

/-- C1: the code places a resource from directory `apps2` in scope of
directory `apps` — `scope` tests containment with a raw
`strings.HasPrefix(resourceDir, dir)` (container.go line 266), so a
sibling directory that merely shares a string prefix with the scope
directory passes the test, contrary to the claimed segment-aware
behavior and to the code's own comment ("isn't in a subdirectory of
where the function lives"). -/
theorem c1_sibling_dir_placed_in_scope :
    ContainerFilter.scope {} "apps" [siblingRes] = .ok ([siblingRes], []) := by
  rfl

/-- C2: with `GlobalScope` unset and a non-empty, non-root scope
directory, a resource with readable metadata but no origin-path
annotation is placed in the out-of-scope bucket by a successful
partition, never in the in-scope bucket. -/
theorem c2_no_origin_path_out_of_scope (c : ContainerFilter) (dir : String)
    (nodes inp sav : List Resource) (r : Resource) (m : Meta)
    (hg : c.GlobalScope = false) (h1 : dir ≠ "") (h2 : dir ≠ ".")
    (hok : c.scope dir nodes = .ok (inp, sav))
    (hr : r ∈ nodes) (hm : r.meta = some m)
    (hann : lookupAnn pathAnnKey m.anns = none) :
    r ∈ sav ∧ r ∉ inp := by
  simp only [ContainerFilter.scope, hg, Bool.false_eq_true, if_false] at hok
  rw [if_neg (by simp [h1, h2])] at hok
  obtain ⟨hinp, hsav⟩ := scopeGo_ok_parts dir nodes inp sav hok
  have hk : keptB dir r = false := by simp [keptB, hm, hann]
  constructor
  · rw [hsav]
    exact List.mem_filter.mpr ⟨hr, by simp [hk]⟩
  · rw [hinp]
    intro hmem
    have hk' := (List.mem_filter.mp hmem).2
    rw [hk] at hk'
    exact absurd hk' (by simp)

/-- C2 witness: partitioning `[dirRes, noAnnRes]` under scope `dir`
places the annotation-less resource in the out-of-scope bucket only. -/
theorem c2_witness : noAnnRes ∈ [noAnnRes] ∧ noAnnRes ∉ [dirRes] :=
  c2_no_origin_path_out_of_scope {} "dir" [dirRes, noAnnRes] [dirRes] [noAnnRes]
    noAnnRes { kind := "Service", name := "bar", anns := [] }
    rfl (by decide) (by decide) rfl (by simp) rfl rfl

/-- C3: with `GlobalScope` set — or a scope directory that is empty or
the root `"."` — the partition returns the whole input in scope and an
empty out-of-scope bucket, whatever the resources' annotations are. -/
theorem c3_global_scope_noop (c : ContainerFilter) (dir : String) (nodes : List Resource)
    (h : c.GlobalScope = true ∨ dir = "" ∨ dir = ".") :
    c.scope dir nodes = .ok (nodes, []) := by
  unfold ContainerFilter.scope
  rcases h with hg | hd
  · simp [hg]
  · by_cases hg : c.GlobalScope <;> simp [hg, hd]

/-- C3 witness: a globally scoped filter passes even an unreadable and
an unannotated resource straight through. -/
theorem c3_witness :
    ContainerFilter.scope { GlobalScope := true } "dir" [badMetaRes, noAnnRes] =
      .ok ([badMetaRes, noAnnRes], []) :=
  c3_global_scope_noop { GlobalScope := true } "dir" [badMetaRes, noAnnRes] (Or.inl rfl)

/-- C8: a metadata-retrieval failure on any resource aborts the whole
partition with an error (the `Except.error` result carries no buckets at
all, matching the code's `return nil, nil, err`), and an unreadable
function-configuration metadata aborts scope resolution with a wrapped
error. -/
theorem c8_meta_error_aborts (c : ContainerFilter) (dir : String) (nodes : List Resource)
    (hg : c.GlobalScope = false) (h1 : dir ≠ "") (h2 : dir ≠ ".")
    (hbad : ∃ r ∈ nodes, r.meta = none) :
    c.scope dir nodes = .error .metaErr ∧
      (c.Config.meta = none → c.getFunctionScope = .error (.wrap .metaErr)) := by
  constructor
  · simp only [ContainerFilter.scope, hg, Bool.false_eq_true, if_false]
    rw [if_neg (by simp [h1, h2])]
    exact scopeGo_error_of_bad_meta dir nodes hbad
  · intro hc
    simp [ContainerFilter.getFunctionScope, Resource.GetMeta, hc]

/-- C8 witness: one unreadable resource aborts the split of
`[dirRes, badMetaRes]`, and the default filter's config (no metadata)
fails scope resolution with a wrapped error. -/
theorem c8_witness :
    ContainerFilter.scope {} "dir" [dirRes, badMetaRes] = .error .metaErr ∧
      (({} : ContainerFilter).Config.meta = none →
        ContainerFilter.getFunctionScope {} = .error (.wrap .metaErr)) :=
  c8_meta_error_aborts {} "dir" [dirRes, badMetaRes] rfl (by decide) (by decide)
    ⟨badMetaRes, by simp, rfl⟩

/-- C9: `StringToStorageMount` is not total — a well-formed option
string parses, but an option with no `=` (here the empty string) makes
the Go code index `keyVal[1]` past the end of the two-element split and
panic; the panic is the `none` result of the model. -/
theorem c9_storage_mount_not_total :
    StringToStorageMount "type=bind,src=/a,dst=/b" =
        some { MountType := "bind", Src := "/a", DstPath := "/b" } ∧
      StringToStorageMount "" = none := by
  constructor <;> rfl

/-- A function configuration stored at `functions/fn.yaml`. -/
def fnCfgRes : Resource :=
  ⟨some { kind := "Fn", name := "f", anns := [(pathAnnKey, "functions/fn.yaml")] }⟩

/-- C4: scope resolution — a configuration with readable metadata and
no origin-path annotation yields the empty scope without error; one
annotated with path `p` yields the cleaned directory of `p` with the
`functions`-to-parent rewrite applied; and partitioning applies the same
rewrite to a resource's own directory, placing a single annotated
resource in scope exactly when its rewritten directory passes the
containment test. -/
theorem c4_function_scope_resolution (c : ContainerFilter) (m : Meta)
    (hm : c.Config.meta = some m) :
    (lookupAnn pathAnnKey m.anns = none → c.getFunctionScope = .ok "") ∧
    (∀ p, lookupAnn pathAnnKey m.anns = some p →
      c.getFunctionScope = .ok (fnDirRewrite (pathClean (pathDir p)))) ∧
    (∀ dir r m' p, r.meta = some m' → lookupAnn pathAnnKey m'.anns = some p →
      scopeGo dir [r] =
        .ok (if strStarts (fnDirRewrite (pathClean (pathDir p))) dir
             then ([r], ([] : List Resource)) else ([], [r]))) := by
  refine ⟨?_, ?_, ?_⟩
  · intro hann
    simp [ContainerFilter.getFunctionScope, Resource.GetMeta, hm, hann]
  · intro p hann
    simp only [ContainerFilter.getFunctionScope, Resource.GetMeta, hm, hann, fnDirRewrite]
    by_cases hb : pathBase (pathClean (pathDir p)) = functionsDirectoryName <;> simp [hb]
  · intro dir r m' p hm' hann
    simp only [scopeGo, Resource.GetMeta, hm', hann, fnDirRewrite]
    exact (apply_ite Except.ok _ _ _).symm

/-- C4 witness: a function configuration at `functions/fn.yaml` resolves
to the parent of `functions`, here the root `"."`. -/
theorem c4_witness :
    fnDirRewrite (pathClean (pathDir "functions/fn.yaml")) = "." ∧
      ContainerFilter.getFunctionScope { Config := fnCfgRes } =
        .ok (fnDirRewrite (pathClean (pathDir "functions/fn.yaml"))) :=
  ⟨by rfl,
   (c4_function_scope_resolution { Config := fnCfgRes }
      { kind := "Fn", name := "f", anns := [(pathAnnKey, "functions/fn.yaml")] }
      rfl).2.1 "functions/fn.yaml" rfl⟩

/-- Evaluation of `Filter` once scope resolution, the partition, the
input write, the output read and the results handling have succeeded. -/
lemma filter_eval (c : ContainerFilter) (pb : ProcessBehavior) (nodes : List Resource)
    (fdir : String) (inp sav output : List Resource)
    (hf : c.getFunctionScope = .ok fdir)
    (hs : c.scope fdir nodes = .ok (inp, sav))
    (hw : pb.writeErr = none)
    (hr : pb.readResult = .ok output)
    (hres : pb.resultsErr = none) :
    c.Filter pb nodes =
      if pb.runExit.isSome && !c.DeferFailure then
        ⟨output ++ sav, pb.runExit, { c with Exit := pb.runExit }⟩
      else
        match defaultPathAnns fdir output with
        | .error e => ⟨[], some e, { c with Exit := pb.runExit }⟩
        | .ok out2 => ⟨out2 ++ sav, none, { c with Exit := pb.runExit }⟩ := by
  simp only [ContainerFilter.Filter, hf, hs, hw, hr, hres]

/-- A successful `scope` call yields a strict, order-preserving
partition of its input. -/
lemma scope_ok_partition (c : ContainerFilter) (dir : String) (nodes inp sav : List Resource)
    (h : c.scope dir nodes = .ok (inp, sav)) :
    inp.length + sav.length = nodes.length ∧ inp.Sublist nodes ∧ sav.Sublist nodes ∧
      (∀ r ∈ nodes, (r ∈ inp ∧ r ∉ sav) ∨ (r ∈ sav ∧ r ∉ inp)) := by
  unfold ContainerFilter.scope at h
  by_cases hg : c.GlobalScope = true
  · rw [if_pos hg] at h
    simp only [Except.ok.injEq, Prod.mk.injEq] at h
    obtain ⟨hinp, hsav⟩ := h
    subst hinp; subst hsav
    exact ⟨by simp, List.Sublist.refl nodes, List.nil_sublist nodes,
      fun r hr => Or.inl ⟨hr, by simp⟩⟩
  · rw [if_neg hg] at h
    by_cases hd : dir = "" ∨ dir = "."
    · rw [if_pos hd] at h
      simp only [Except.ok.injEq, Prod.mk.injEq] at h
      obtain ⟨hinp, hsav⟩ := h
      subst hinp; subst hsav
      exact ⟨by simp, List.Sublist.refl nodes, List.nil_sublist nodes,
        fun r hr => Or.inl ⟨hr, by simp⟩⟩
    · rw [if_neg hd] at h
      obtain ⟨hinp, hsav⟩ := scopeGo_ok_parts dir nodes inp sav h
      subst hinp; subst hsav
      refine ⟨length_filter_add_compl (keptB dir) nodes,
        List.filter_sublist nodes, List.filter_sublist nodes, fun r hr => ?_⟩
      cases hk : keptB dir r with
      | true =>
        refine Or.inl ⟨List.mem_filter.mpr ⟨hr, hk⟩, fun hmem => ?_⟩
        have := (List.mem_filter.mp hmem).2
        rw [hk] at this
        exact absurd this (by simp)
      | false =>
        refine Or.inr ⟨List.mem_filter.mpr ⟨hr, by simp [hk]⟩, fun hmem => ?_⟩
        have := (List.mem_filter.mp hmem).2
        rw [hk] at this
        exact absurd this (by simp)

/-- C5: a successful partition is strict — the bucket sizes sum to the
input size, each bucket preserves the input's relative order (it is a
sublist of the input), every input resource lands in exactly one
bucket — and the collection `Filter` finally returns carries the
out-of-scope resources as one block appended after the function's
output, on the failing path as on the successful one. -/
theorem c5_strict_partition (c : ContainerFilter) (pb : ProcessBehavior)
    (nodes inp sav output : List Resource) (fdir : String)
    (hf : c.getFunctionScope = .ok fdir)
    (hok : c.scope fdir nodes = .ok (inp, sav))
    (hw : pb.writeErr = none) (hr : pb.readResult = .ok output)
    (hres : pb.resultsErr = none) :
    inp.length + sav.length = nodes.length ∧
      inp.Sublist nodes ∧ sav.Sublist nodes ∧
      (∀ r ∈ nodes, (r ∈ inp ∧ r ∉ sav) ∨ (r ∈ sav ∧ r ∉ inp)) ∧
      (∀ out2, defaultPathAnns fdir output = .ok out2 →
        (c.Filter pb nodes).nodes =
          (if pb.runExit.isSome && !c.DeferFailure then output else out2) ++ sav) := by
  obtain ⟨hlen, hsub1, hsub2, hmem⟩ := scope_ok_partition c fdir nodes inp sav hok
  refine ⟨hlen, hsub1, hsub2, hmem, fun out2 hdpa => ?_⟩
  rw [filter_eval c pb nodes fdir inp sav output hf hok hw hr hres]
  by_cases hcond : (pb.runExit.isSome && !c.DeferFailure) = true
  · simp [hcond]
  · simp only [Bool.not_eq_true] at hcond
    simp [hcond, hdpa]

/-- C7: on a non-zero process exit, `Filter` with `DeferFailure` unset
returns the decoded output concatenated with the out-of-scope resources
together with the exit error, while with `DeferFailure` set the same
concatenation (its output part having passed provenance defaulting,
which is applied in place on that path) comes back with no error and the
exit status stays observable through `GetExit` on the filter value after
the call. -/
theorem c7_defer_failure (c : ContainerFilter) (pb : ProcessBehavior)
    (nodes inp sav output : List Resource) (fdir : String) (e : Err)
    (hf : c.getFunctionScope = .ok fdir)
    (hok : c.scope fdir nodes = .ok (inp, sav))
    (hw : pb.writeErr = none) (he : pb.runExit = some e)
    (hr : pb.readResult = .ok output) (hres : pb.resultsErr = none) :
    (c.DeferFailure = false →
      (c.Filter pb nodes).nodes = output ++ sav ∧
        (c.Filter pb nodes).err = some e ∧
        (c.Filter pb nodes).after.GetExit = some e) ∧
    (c.DeferFailure = true → ∀ out2, defaultPathAnns fdir output = .ok out2 →
      (c.Filter pb nodes).nodes = out2 ++ sav ∧
        (c.Filter pb nodes).err = none ∧
        (c.Filter pb nodes).after.GetExit = some e) := by
  have hev := filter_eval c pb nodes fdir inp sav output hf hok hw hr hres
  constructor
  · intro hd
    rw [hev]
    simp [he, hd, ContainerFilter.GetExit]
  · intro hd out2 hdpa
    rw [hev]
    simp [he, hd, hdpa, ContainerFilter.GetExit]

/-- C10: when the process exits non-zero and `DeferFailure` is unset,
`Filter` returns before provenance defaulting runs — the decoded output
is returned verbatim ahead of the out-of-scope block, so a
function-emitted resource carrying no origin-path annotation reaches the
caller exactly as decoded, still without path or index annotations. -/
theorem c10_error_path_skips_defaulting (c : ContainerFilter) (pb : ProcessBehavior)
    (nodes inp sav output : List Resource) (fdir : String) (e : Err)
    (hf : c.getFunctionScope = .ok fdir)
    (hok : c.scope fdir nodes = .ok (inp, sav))
    (hw : pb.writeErr = none) (he : pb.runExit = some e)
    (hr : pb.readResult = .ok output) (hres : pb.resultsErr = none)
    (hd : c.DeferFailure = false) :
    (c.Filter pb nodes).nodes = output ++ sav ∧
      (c.Filter pb nodes).err = some e ∧
      (∀ r ∈ output, ∀ m, r.meta = some m → lookupAnn pathAnnKey m.anns = none →
        r ∈ (c.Filter pb nodes).nodes) := by
  have hev := filter_eval c pb nodes fdir inp sav output hf hok hw hr hres
  rw [hev]
  simp only [he, hd, Option.isSome_some, Bool.not_false, Bool.and_self, if_true]
  refine ⟨trivial, trivial, fun r hr _ _ _ => ?_⟩
  exact List.mem_append.mpr (Or.inl hr)

lemma lookupAnn_setAnn_self (k v : String) (l : List (String × String)) :
    lookupAnn k (setAnn k v l) = some v := by
  induction l with
  | nil => simp [setAnn, lookupAnn]
  | cons kv rest ih =>
    by_cases hk : kv.1 = k
    · simp [setAnn, hk, lookupAnn]
    · simp [setAnn, hk, lookupAnn, ih]

lemma lookupAnn_setAnn_other (k k' v : String) (l : List (String × String))
    (h : k ≠ k') :
    lookupAnn k (setAnn k' v l) = lookupAnn k l := by
  induction l with
  | nil => simp [setAnn, lookupAnn, Ne.symm h]
  | cons kv rest ih =>
    by_cases hk : kv.1 = k'
    · simp [setAnn, hk, lookupAnn, Ne.symm h]
    · simp only [setAnn, hk, if_false]
      by_cases hk2 : kv.1 = k <;> simp [lookupAnn, hk2, ih]

/-- The per-position effect of provenance defaulting on one resource of
the function output (spec §4.5): a resource already annotated with an
origin path is returned unchanged, and a resource lacking one is
returned with the synthesized default path and an index annotation. -/
def dpaRel (dir : String) (r r' : Resource) : Prop :=
  ∀ m, r.meta = some m →
    ((lookupAnn pathAnnKey m.anns).isSome → r' = r) ∧
    (lookupAnn pathAnnKey m.anns = none →
      ∃ m2 idx, r'.meta = some m2 ∧
        lookupAnn pathAnnKey m2.anns = some (joinPath dir (synthName m)) ∧
        lookupAnn indexAnnKey m2.anns = some idx)

lemma pathAnnKey_ne_indexAnnKey : pathAnnKey ≠ indexAnnKey := by decide

lemma dpaGo_forall2 (dir : String) (assigned : List String)
    (nodes out : List Resource)
    (h : dpaGo dir assigned nodes = .ok out) :
    List.Forall₂ (dpaRel dir) nodes out := by
  induction nodes generalizing assigned out with
  | nil =>
    simp only [dpaGo, Except.ok.injEq] at h
    subst h
    exact List.Forall₂.nil
  | cons r rest ih =>
    cases hm : r.meta with
    | none => simp [dpaGo, Resource.GetMeta, hm] at h
    | some m =>
      cases hann : lookupAnn pathAnnKey m.anns with
      | some p =>
        simp only [dpaGo, Resource.GetMeta, hm, hann] at h
        cases htail : dpaGo dir assigned rest with
        | error e => rw [htail] at h; exact absurd h (by simp)
        | ok outTail =>
          rw [htail] at h
          simp only [Except.ok.injEq] at h
          subst h
          refine List.Forall₂.cons (fun m' hm' => ?_) (ih assigned outTail htail)
          rw [hm] at hm'
          injection hm' with hm''
          subst hm''
          exact ⟨fun _ => rfl, fun hn => by rw [hn] at hann; cases hann⟩
      | none =>
        simp only [dpaGo, Resource.GetMeta, hm, hann] at h
        cases htail : dpaGo dir (synthName m :: assigned) rest with
        | error e => rw [htail] at h; exact absurd h (by simp)
        | ok outTail =>
          rw [htail] at h
          simp only [Except.ok.injEq] at h
          subst h
          refine List.Forall₂.cons (fun m' hm' => ?_)
            (ih (synthName m :: assigned) outTail htail)
          rw [hm] at hm'
          injection hm' with hm''
          subst hm''
          refine ⟨fun hsome => ?_, fun _ => ?_⟩
          · rw [hann] at hsome; cases hsome
          · refine ⟨_, toString (countStr (synthName m) assigned), rfl, ?_, ?_⟩
            · rw [lookupAnn_setAnn_other _ _ _ _ pathAnnKey_ne_indexAnnKey]
              exact lookupAnn_setAnn_self _ _ _
            · exact lookupAnn_setAnn_self _ _ _

/-- C6: provenance defaulting (modelled from the spec, `kioutil` not
being part of the repository slice) leaves every output resource that
already carries an origin-path annotation entirely unchanged, and gives
every resource lacking one the synthesized default path plus an index
annotation — position by position over the output list. -/
theorem c6_dpa_frame (dir : String) (nodes out : List Resource)
    (h : defaultPathAnns dir nodes = .ok out) :
    List.Forall₂ (dpaRel dir) nodes out :=
  dpaGo_forall2 dir [] nodes out h

/-! ### Witness fixtures for the `Filter`-level claims -/

/-- A filter whose function configuration was read from `dir/fn.yaml`,
so its resolved scope is `dir`. -/
def cW : ContainerFilter :=
  { Config := ⟨some { kind := "Fn", name := "f", anns := [(pathAnnKey, "dir/fn.yaml")] }⟩ }

/-- The same filter with `DeferFailure` set. -/
def cWd : ContainerFilter :=
  { cW with DeferFailure := true }

/-- A process run that exits non-zero and emits no resources. -/
def pb7 : ProcessBehavior :=
  { runExit := some (.external "exit 1") }

/-- A process run that exits non-zero and emits one unannotated
resource. -/
def pb10 : ProcessBehavior :=
  { runExit := some (.external "exit 1"), readResult := .ok [noAnnRes] }

/-- `noAnnRes` after provenance defaulting under scope `dir`. -/
def defaultedRes : Resource :=
  ⟨some { kind := "Service", name := "bar",
          anns := [(pathAnnKey, "dir/service_bar.yaml"), (indexAnnKey, "0")] }⟩

/-- C5 witness: partitioning `[dirRes, noAnnRes]` under scope `dir`
gives buckets of sizes 1 + 1, and the filter's final collection is the
function output followed by the out-of-scope block. -/
theorem c5_witness :
    ([dirRes] : List Resource).length + ([noAnnRes] : List Resource).length =
        ([dirRes, noAnnRes] : List Resource).length ∧
      (cW.Filter {} [dirRes, noAnnRes]).nodes =
        (if ({} : ProcessBehavior).runExit.isSome && !cW.DeferFailure
         then ([] : List Resource) else []) ++ [noAnnRes] :=
  ⟨(c5_strict_partition cW {} [dirRes, noAnnRes] [dirRes] [noAnnRes] [] "dir"
      rfl rfl rfl rfl rfl).1,
   (c5_strict_partition cW {} [dirRes, noAnnRes] [dirRes] [noAnnRes] [] "dir"
      rfl rfl rfl rfl rfl).2.2.2.2 [] rfl⟩

/-- C6 witness: defaulting `[dirRes, noAnnRes]` under `dir` keeps the
annotated resource unchanged and gives the other the synthesized path
`dir/service_bar.yaml` and index `0`. -/
theorem c6_witness :
    List.Forall₂ (dpaRel "dir") [dirRes, noAnnRes] [dirRes, defaultedRes] :=
  c6_dpa_frame "dir" [dirRes, noAnnRes] [dirRes, defaultedRes] rfl

/-- C7 witness: on exit error, the non-deferring filter reports the
error while recording the exit, and the deferring filter reports no
error while the exit stays observable through `GetExit`. -/
theorem c7_witness :
    ((cW.Filter pb7 [dirRes, noAnnRes]).err = some (.external "exit 1") ∧
        (cW.Filter pb7 [dirRes, noAnnRes]).after.GetExit = some (.external "exit 1")) ∧
      ((cWd.Filter pb7 [dirRes, noAnnRes]).err = none ∧
        (cWd.Filter pb7 [dirRes, noAnnRes]).after.GetExit = some (.external "exit 1")) :=
  ⟨⟨((c7_defer_failure cW pb7 [dirRes, noAnnRes] [dirRes] [noAnnRes] [] "dir"
        (.external "exit 1") rfl rfl rfl rfl rfl rfl).1 rfl).2.1,
    ((c7_defer_failure cW pb7 [dirRes, noAnnRes] [dirRes] [noAnnRes] [] "dir"
        (.external "exit 1") rfl rfl rfl rfl rfl rfl).1 rfl).2.2⟩,
   ⟨((c7_defer_failure cWd pb7 [dirRes, noAnnRes] [dirRes] [noAnnRes] [] "dir"
        (.external "exit 1") rfl rfl rfl rfl rfl rfl).2 rfl [] rfl).2.1,
    ((c7_defer_failure cWd pb7 [dirRes, noAnnRes] [dirRes] [noAnnRes] [] "dir"
        (.external "exit 1") rfl rfl rfl rfl rfl rfl).2 rfl [] rfl).2.2⟩⟩

/-- C10 witness: on the non-deferred error path the single emitted
resource comes back verbatim — still carrying no origin-path
annotation — with no defaulting applied. -/
theorem c10_witness :
    (cW.Filter pb10 [dirRes]).nodes = [noAnnRes] ++ [] ∧
      noAnnRes ∈ (cW.Filter pb10 [dirRes]).nodes :=
  ⟨(c10_error_path_skips_defaulting cW pb10 [dirRes] [dirRes] [] [noAnnRes] "dir"
      (.external "exit 1") rfl rfl rfl rfl rfl rfl rfl).1,
   (c10_error_path_skips_defaulting cW pb10 [dirRes] [dirRes] [] [noAnnRes] "dir"
      (.external "exit 1") rfl rfl rfl rfl rfl rfl rfl).2.2 noAnnRes (by simp) _ rfl rfl⟩

end Kustomize
